import Mathlib

/-
Verification development for the YC/Dice company scraper (src/scraper.py).

Strings are embedded as `List Char` (Python `str` restricted to the ASCII
range; every input appearing in the claims is ASCII).  Pure helpers of the
source are translated one-to-one; the pandas merge in `__main__`
(lines 441-487) and the per-company attribute-resolution cascade in `scrape`
(lines 156-281) are embedded as pure functions over explicit record types.
-/

/-- ASCII whitespace recognised by Python `str.strip` / regex `\s`. -/
def isPySpace (c : Char) : Bool :=
  c = ' ' || c = '\t' || c = '\n' || c = '\r' || c = '\x0b' || c = '\x0c'

/-- Python `str.lstrip()` on the ASCII whitespace class. -/
def lstripW (l : List Char) : List Char := l.dropWhile isPySpace

/-- Python `str.rstrip()` on the ASCII whitespace class. -/
def rstripW (l : List Char) : List Char := (l.reverse.dropWhile isPySpace).reverse

/-- Python `str.strip()` on the ASCII whitespace class. -/
def pyStrip (l : List Char) : List Char := rstripW (lstripW l)

/-- Python `a.startswith(pat)` : `startsWithL pat a`. -/
def startsWithL : List Char → List Char → Bool
  | [], _ => true
  | _ :: _, [] => false
  | p :: ps, c :: cs => if p = c then startsWithL ps cs else false

/-- Python `pat in s` (substring containment): `containsL pat s`. -/
def containsL (pat : List Char) : List Char → Bool
  | [] => startsWithL pat []
  | c :: cs => startsWithL pat (c :: cs) || containsL pat cs

/-- Python `a or b` for strings / lists: first operand if truthy (non-empty),
otherwise the second. -/
def pyOrL {α : Type} (a b : List α) : List α :=
  match a with
  | [] => b
  | _ :: _ => a

/-- `_normalize_url` (src/scraper.py lines 13-20): empty stays empty, the
input is stripped, protocol-relative input gets an `https:` scheme, anything
else is returned (stripped but otherwise unchanged). -/
def _normalize_url (u : List Char) : List Char :=
  if u = [] then []
  else if startsWithL ("//".data) (pyStrip u) then ("https:".data) ++ pyStrip u
  else pyStrip u

/-- Collapse every maximal run of whitespace to a single space, the effect of
`re.sub(r"\s+", " ", s)`. -/
def collapseWs : List Char → List Char
  | [] => []
  | [c] => [if isPySpace c then ' ' else c]
  | c1 :: c2 :: rest =>
    if isPySpace c1 && isPySpace c2 then collapseWs (c2 :: rest)
    else (if isPySpace c1 then ' ' else c1) :: collapseWs (c2 :: rest)

/-- `_normalize_name` (src/scraper.py lines 23-26): strip, collapse inner
whitespace runs to single spaces, lower-case (ASCII). -/
def _normalize_name (n : List Char) : List Char :=
  if n = [] then [] else (collapseWs (pyStrip n)).map Char.toLower

/-- A WHATWG C0-control-or-space character, stripped from the front of a URL
by `urllib.parse.urlsplit`. -/
def isC0OrSpace (c : Char) : Bool := c.toNat ≤ 0x20

/-- A character allowed in a URL scheme by `urllib.parse` (`scheme_chars`). -/
def isSchemeChar (c : Char) : Bool :=
  c.isAlpha || c.isDigit || c = '+' || c = '-' || c = '.'

/-- The scheme-splitting step of `urllib.parse.urlsplit`: if the text before
the first `:` is a non-empty run of scheme characters, drop it (with the
colon). -/
def stripScheme (url : List Char) : List Char :=
  match url.findIdx? (fun c => decide (c = ':')) with
  | none => url
  | some i => if 0 < i ∧ (url.take i).all isSchemeChar then url.drop (i + 1) else url

/-- The `.netloc` component computed by `urllib.parse.urlparse` (CPython
3.10-series `urlsplit`, restricted to ASCII input, for which the NFKC netloc
check is a no-op): left-strip C0 controls and spaces, remove tab/CR/LF, split
off the scheme, and if the remainder begins with `//` read the host part up
to the first `/`, `?` or `#`.  A netloc with unbalanced square brackets
raises `ValueError` ("Invalid IPv6 URL"), modelled as `none`; an input not
beginning with `//` after scheme removal has an empty netloc. -/
def netlocOf (url : List Char) : Option (List Char) :=
  let u1 := url.dropWhile isC0OrSpace
  let u2 := u1.filter (fun c => decide (¬ (c = '\t' ∨ c = '\r' ∨ c = '\n')))
  let u3 := stripScheme u2
  if startsWithL ("//".data) u3 then
    let netloc := (u3.drop 2).takeWhile (fun c => decide (¬ (c = '/' ∨ c = '?' ∨ c = '#')))
    if (('[' ∈ netloc) ∧ ¬ (']' ∈ netloc)) ∨ ((']' ∈ netloc) ∧ ¬ ('[' ∈ netloc)) then none
    else some netloc
  else some []

/-- The scheme-defaulting prelude of `_extract_domain` (src/scraper.py lines
32-35): protocol-relative input gets `https:`, and input not beginning with
the four characters `http` gets an `http://` prefix. -/
def schemePrefixed (url : List Char) : List Char :=
  let u1 := if startsWithL ("//".data) url then ("https:".data) ++ url else url
  if startsWithL ("http".data) u1 then u1 else ("http://".data) ++ u1

/-- The fallible part of `_extract_domain`, i.e. everything inside its
`try` block up to and including `urlparse(url).netloc`; `none` is the raising
outcome caught by the `except` clause. -/
def extractDomainParse (url : List Char) : Option (List Char) :=
  netlocOf (schemePrefixed url)

/-- `_extract_domain` (src/scraper.py lines 28-42): empty input gives empty;
otherwise the parsed netloc is lower-cased and a single leading `www.` is
stripped; if parsing raises, the `except` clause yields the empty string. -/
def _extract_domain (url : List Char) : List Char :=
  if url = [] then []
  else
    match extractDomainParse url with
    | none => []
    | some netloc =>
      let host := netloc.map Char.toLower
      if startsWithL ("www.".data) host then host.drop 4 else host

/-- A persisted dataset row: columns `name`, `Company Website`,
`Is a new company?` (the last held as a string, `""` or `"YES"`, exactly as
in the CSV). -/
structure Row where
  name : List Char
  website : List Char
  isNew : List Char
  deriving DecidableEq, Repr

/-- A scraped candidate record (one row of the in-run DataFrame `df`):
columns `name` and `Company Website`. -/
structure Cand where
  name : List Char
  website : List Char
  deriving DecidableEq, Repr

/-- The `__name_norm` dedup key of a row. -/
def nameKey (r : Row) : List Char := _normalize_name r.name

/-- The `__domain` dedup key of a row. -/
def domainKey (r : Row) : List Char := _extract_domain r.website

/-- The candidate-filtering loop of the merge (src/scraper.py lines 448-470):
iterate candidates, strip the fields, skip blank rows, reject on collisions
with the existing dataset's keys and then on collisions with the run-local
`seen_names` / `seen_domains` sets (empty keys never reject), and mark every
accepted row `YES`. -/
def loopGo (exNames exDomains : List (List Char)) :
    List Cand → List (List Char) → List (List Char) → List Row
  | [], _, _ => []
  | c :: cs, seenNames, seenDomains =>
    let name := pyStrip c.name
    let site := pyStrip c.website
    let nameNorm := _normalize_name name
    let domain := _extract_domain site
    if name = [] ∧ site = [] then loopGo exNames exDomains cs seenNames seenDomains
    else if nameNorm ≠ [] ∧ nameNorm ∈ exNames then
      loopGo exNames exDomains cs seenNames seenDomains
    else if domain ≠ [] ∧ domain ∈ exDomains then
      loopGo exNames exDomains cs seenNames seenDomains
    else if nameNorm ≠ [] ∧ nameNorm ∈ seenNames then
      loopGo exNames exDomains cs seenNames seenDomains
    else if domain ≠ [] ∧ domain ∈ seenDomains then
      loopGo exNames exDomains cs seenNames seenDomains
    else
      ⟨name, site, "YES".data⟩ ::
        loopGo exNames exDomains cs (nameNorm :: seenNames) (domain :: seenDomains)

/-- `new_rows` as computed by the merge: the loop run against the key sets of
the existing dataset (src/scraper.py lines 442-470). -/
def newRowsOf (e : List Row) (cs : List Cand) : List Row :=
  loopGo (e.map nameKey) (e.map domainKey) cs [] []

/-- `DataFrame.drop_duplicates(subset=[k], keep='first')`: keep a row iff its
key was not seen on an earlier (kept or dropped) row. -/
def drop_duplicates (key : Row → List Char) : List Row → List (List Char) → List Row
  | [], _ => []
  | r :: rs, seen =>
    if key r ∈ seen then drop_duplicates key rs seen
    else r :: drop_duplicates key rs (key r :: seen)

/-- Declarative reading of a keep-first duplicate drop, written from the
spec's words: keep the first occurrence, and drop every later row whose key
equals the key of an earlier row. -/
def dropDupSpec (key : Row → List Char) : List Row → List Row
  | [] => []
  | r :: rs => r :: dropDupSpec key (rs.filter (fun x => decide (key x ≠ key r)))
  termination_by l => l.length
  decreasing_by
    simp only [List.length_cons]
    exact Nat.lt_succ_of_le (List.length_filter_le _ rs)

/-- The whole merge of `__main__` (src/scraper.py lines 441-487): clear the
`Is a new company?` marker on every existing row, append the accepted new
rows, then run the defence-in-depth passes `drop_duplicates(['__domain'])`
followed by `drop_duplicates(['__name_norm'])`, each keeping the first
occurrence. -/
def merge (e : List Row) (cs : List Cand) : List Row :=
  let appended := e.map (fun r => { r with isNew := [] }) ++ newRowsOf e cs
  drop_duplicates nameKey (drop_duplicates domainKey appended []) []

/-- One founder entry of the embedded `data-page` JSON; the three fields are
the keys probed by `f.get('linkedin_url') or f.get('linkedin') or
f.get('linkedinUrl')` (absent keys are the empty string). -/
structure Founder where
  linkedin_url : List Char
  linkedin : List Char
  linkedinUrl : List Char

/-- The `props.company` object of the embedded `data-page` JSON, restricted
to the keys the scraper reads. -/
structure CompanyObj where
  linkedin_url : List Char
  linkedin : List Char
  website : List Char
  url : List Char
  founders : List Founder

/-- The embedded `data-page` JSON payload: `props.company` and
`props.founders`. -/
structure PageState where
  company : CompanyObj
  founders : List Founder

/-- One successfully parsed JSON-LD item: its `sameAs` entries (a bare string
is already coerced to a one-element list, as in the source) and its `url`
key. -/
structure LdItem where
  sameAs : List (List Char)
  url : List Char

/-- A fetched company detail page, holding the results of the individual
queries the cascade performs (src/scraper.py lines 144-281).  `none` for the
optional fields means the selector or regex found nothing (or the guarded
query raised and was caught); regex fields hold the matches of the LinkedIn
patterns over the raw markup. -/
structure Page where
  pageState : Option PageState
  domCompanyLinkedin : Option (List Char)
  domWebsiteAria : Option (List Char)
  domHttpAnchors : List (List Char)
  ldItems : List LdItem
  domFounderAnchors : List (List Char)
  regexCompanyMatch : Option (List Char)
  regexFounderMatches : List (List Char)

/-- A cascade strategy application, recorded when the corresponding
extraction in the source actually runs for its field. -/
inductive Step
  | jsonLinkedin | jsonWebsite | jsonFounders
  | domLinkedin | domWebsite
  | ldLinkedin | ldWebsite
  | domFounders
  | regexLinkedin | regexFounders
  deriving DecidableEq, Repr

/-- The link chosen for one founder by the `or`-chain over its JSON keys. -/
def founderLink (f : Founder) : List Char :=
  pyOrL (pyOrL f.linkedin_url f.linkedin) f.linkedinUrl

/-- `founders_linkedin` after the JSON step (src/scraper.py lines 175-181):
each founder whose link chain is truthy contributes its normalised link. -/
def jsonFounders (fs : List Founder) : List (List Char) :=
  fs.filterMap (fun f => if founderLink f = [] then none else some (_normalize_url (founderLink f)))

/-- `company_linkedin` after the JSON step (lines 164-167). -/
def json_cl (p : Page) : List Char :=
  match p.pageState with
  | none => []
  | some ps =>
    let r := pyOrL ps.company.linkedin_url ps.company.linkedin
    if r = [] then [] else _normalize_url r

/-- `company_website` after the JSON step (lines 169-172). -/
def json_cw (p : Page) : List Char :=
  match p.pageState with
  | none => []
  | some ps =>
    let r := pyOrL ps.company.website ps.company.url
    if r = [] then [] else _normalize_url r

/-- `founders_linkedin` after the JSON step (lines 175-181). -/
def json_fl (p : Page) : List (List Char) :=
  match p.pageState with
  | none => []
  | some ps => jsonFounders (pyOrL ps.founders ps.company.founders)

/-- Value produced by the DOM company-LinkedIn query (lines 191-197): the
anchor's href if present and truthy, normalised. -/
def domVal (o : Option (List Char)) : List Char :=
  match o with
  | some h => if h = [] then [] else _normalize_url h
  | none => []

/-- `company_linkedin` after the DOM fallback and the unconditional
re-normalisation of line 198. -/
def dom_cl (p : Page) : List Char :=
  _normalize_url (if json_cl p = [] then domVal p.domCompanyLinkedin else json_cl p)

/-- Value produced by the DOM website step (lines 202-214): the
`aria-label="Company website"` anchor if present (normalised when truthy),
otherwise the first `http` anchor whose href does not mention linkedin.com
(taken raw, as in the source). -/
def domWebsiteVal (p : Page) : List Char :=
  match p.domWebsiteAria with
  | some h => if h = [] then [] else _normalize_url h
  | none =>
    match p.domHttpAnchors.find? (fun h => decide (h ≠ [] ∧ containsL ("linkedin.com".data) h = false)) with
    | some h => h
    | none => []

/-- `company_website` after the DOM fallback and the unconditional
re-normalisation of line 217. -/
def dom_cw (p : Page) : List Char :=
  _normalize_url (if json_cw p = [] then domWebsiteVal p else json_cw p)

/-- The inner `sameAs` loop of the JSON-LD block (lines 236-242), threading
`company_linkedin`, `company_website` and the trace through the candidates:
a candidate containing `linkedin.com/company` fills an empty
`company_linkedin`; a candidate that looks like a URL, does not mention
linkedin.com and meets an empty `company_website` fills it. -/
def ldSameAsGo : List (List Char) → List Char → List Char → List Step →
    List Char × List Char × List Step
  | [], cl, cw, tr => (cl, cw, tr)
  | u :: us, cl, cw, tr =>
    let doCl := containsL ("linkedin.com/company".data) u = true ∧ cl = []
    let cl2 := if doCl then _normalize_url u else cl
    let tr2 := if doCl then tr ++ [Step.ldLinkedin] else tr
    let doCw := (startsWithL ("http".data) u = true ∨ startsWithL ("//".data) u = true) ∧
      cw = [] ∧ containsL ("linkedin.com".data) u = false
    let cw2 := if doCw then _normalize_url u else cw
    let tr3 := if doCw then tr2 ++ [Step.ldWebsite] else tr2
    ldSameAsGo us cl2 cw2 tr3

/-- The outer JSON-LD item loop (lines 230-246): per item, run the `sameAs`
loop, then let a truthy `url` key fill a still-empty `company_website`. -/
def ldItemsGo : List LdItem → List Char → List Char → List Step →
    List Char × List Char × List Step
  | [], cl, cw, tr => (cl, cw, tr)
  | it :: its, cl, cw, tr =>
    let r := ldSameAsGo it.sameAs cl cw tr
    let doUrl := r.2.1 = [] ∧ it.url ≠ []
    let cw3 := if doUrl then _normalize_url it.url else r.2.1
    let tr3 := if doUrl then r.2.2 ++ [Step.ldWebsite] else r.2.2
    ldItemsGo its r.1 cw3 tr3

/-- `company_linkedin` after the JSON-LD block, which runs only when the
company LinkedIn or the website is still missing (line 221). -/
def ld_cl (p : Page) : List Char :=
  if dom_cl p = [] ∨ dom_cw p = [] then (ldItemsGo p.ldItems (dom_cl p) (dom_cw p) []).1
  else dom_cl p

/-- `company_website` after the JSON-LD block. -/
def ld_cw (p : Page) : List Char :=
  if dom_cl p = [] ∨ dom_cw p = [] then (ldItemsGo p.ldItems (dom_cl p) (dom_cw p) []).2.1
  else dom_cw p

/-- The DOM founders loop (lines 252-259): collect each truthy href not seen
before (raw hrefs are deduplicated, normalised values appended). -/
def domFoundersGo : List (List Char) → List (List Char) → List (List Char)
  | [], _ => []
  | h :: hs, seen =>
    if h ≠ [] ∧ ¬ h ∈ seen then _normalize_url h :: domFoundersGo hs (h :: seen)
    else domFoundersGo hs seen

/-- `founders_linkedin` after the DOM fallback (line 250). -/
def dom_fl (p : Page) : List (List Char) :=
  if json_fl p = [] then domFoundersGo p.domFounderAnchors [] else json_fl p

/-- `company_linkedin` after the final regex block (lines 264-271): the block
runs when the company LinkedIn or the founders list is missing, and the
company search runs inside it only when the company LinkedIn is missing. -/
def regex_cl (p : Page) : List Char :=
  if (ld_cl p = [] ∨ dom_fl p = []) ∧ ld_cl p = [] then
    match p.regexCompanyMatch with
    | some m => _normalize_url m
    | none => ld_cl p
  else ld_cl p

/-- `founders_linkedin` after the final regex block (lines 272-279): the
normalised matches not already present are appended (the `seen` set is built
once from the current list and never updated inside the loop). -/
def regex_fl (p : Page) : List (List Char) :=
  if (ld_cl p = [] ∨ dom_fl p = []) ∧ dom_fl p = [] then
    dom_fl p ++ (p.regexFounderMatches.map _normalize_url).filter (fun n => decide (¬ n ∈ dom_fl p))
  else dom_fl p

/-- The trace of strategy applications, in source order: JSON extractions
(when their guards fire), the two DOM fallbacks (when consulted), the
JSON-LD per-field extractions (as recorded by the item loop), the founders
DOM fallback, and the two regex searches (when consulted). -/
def resolveTrace (p : Page) : List Step :=
  (match p.pageState with
   | none => []
   | some ps =>
     (if pyOrL ps.company.linkedin_url ps.company.linkedin = [] then [] else [Step.jsonLinkedin]) ++
     (if pyOrL ps.company.website ps.company.url = [] then [] else [Step.jsonWebsite]) ++
     (if (pyOrL ps.founders ps.company.founders).isEmpty then [] else [Step.jsonFounders])) ++
  (if json_cl p = [] then [Step.domLinkedin] else []) ++
  (if json_cw p = [] then [Step.domWebsite] else []) ++
  (if dom_cl p = [] ∨ dom_cw p = [] then (ldItemsGo p.ldItems (dom_cl p) (dom_cw p) []).2.2 else []) ++
  (if json_fl p = [] then [Step.domFounders] else []) ++
  (if (ld_cl p = [] ∨ dom_fl p = []) ∧ ld_cl p = [] then [Step.regexLinkedin] else []) ++
  (if (ld_cl p = [] ∨ dom_fl p = []) ∧ dom_fl p = [] then [Step.regexFounders] else [])

/-- The resolved attributes of one detail page, with the trace of consulted
strategies. -/
structure Resolved where
  company_linkedin : List Char
  company_website : List Char
  founders_linkedin : List (List Char)
  trace : List Step

/-- The whole per-page resolution cascade (src/scraper.py lines 156-281). -/
def resolve (p : Page) : Resolved :=
  ⟨regex_cl p, ld_cw p, regex_fl p, resolveTrace p⟩

/-- The company-LinkedIn field's own cascade, written standalone: JSON, then
DOM, then the JSON-LD candidates, then the regex search, each step consulted
only while the field is still empty, reading only the LinkedIn-relevant
parts of the page. -/
def ldLinkedinSameAs : List (List Char) → List Char → List Char
  | [], cl => cl
  | u :: us, cl =>
    ldLinkedinSameAs us
      (if containsL ("linkedin.com/company".data) u = true ∧ cl = [] then _normalize_url u else cl)

/-- The LinkedIn component of the JSON-LD item loop, standalone. -/
def ldLinkedinGo : List LdItem → List Char → List Char
  | [], cl => cl
  | it :: its, cl => ldLinkedinGo its (ldLinkedinSameAs it.sameAs cl)

/-- The standalone company-LinkedIn cascade result. -/
def linkedinOnly (p : Page) : List Char :=
  if ldLinkedinGo p.ldItems (dom_cl p) = [] then
    match p.regexCompanyMatch with
    | some m => _normalize_url m
    | none => []
  else ldLinkedinGo p.ldItems (dom_cl p)

/-- The standalone founder-profiles cascade result: JSON, then DOM, then the
regex matches, each consulted only while the set is empty. -/
def foundersOnly (p : Page) : List (List Char) :=
  if dom_fl p = [] then
    dom_fl p ++ (p.regexFounderMatches.map _normalize_url).filter (fun n => decide (¬ n ∈ dom_fl p))
  else dom_fl p

/-- A concrete `data-page` payload whose company object carries a website:
used to exercise the cascade short-circuit. -/
def psEx : PageState :=
  { company := { linkedin_url := [], linkedin := [], website := "https://real.io".data,
                 url := [], founders := [] },
    founders := [] }

/-- A concrete detail page whose embedded JSON yields a website while every
later website source holds a different value, so a consulted later step would
be visible in the result. -/
def pageEx : Page :=
  { pageState := some psEx,
    domCompanyLinkedin := some ("https://linkedin.com/company/real".data),
    domWebsiteAria := some ("https://dom-site.example".data),
    domHttpAnchors := ["https://anchor.example".data],
    ldItems := [⟨["https://ld.example".data], "https://ld-url.example".data⟩],
    domFounderAnchors := ["https://linkedin.com/in/alice".data],
    regexCompanyMatch := some ("https://linkedin.com/company/regex".data),
    regexFounderMatches := [] }

theorem length_dropWhile_le (p : Char → Bool) (l : List Char) :
    (l.dropWhile p).length ≤ l.length := by
  induction l with
  | nil => simp
  | cons a t ih =>
    by_cases h : p a = true
    · simp only [List.dropWhile_cons, if_pos h, List.length_cons]
      omega
    · simp [List.dropWhile_cons, h]

theorem dropWhile_self (p : Char → Bool) (l : List Char) :
    (l.dropWhile p).dropWhile p = l.dropWhile p := by
  induction l with
  | nil => simp
  | cons a t ih =>
    by_cases h : p a = true
    · simp [List.dropWhile_cons, h, ih]
    · simp [List.dropWhile_cons, h]

theorem dropWhile_cons_eq_self {p : Char → Bool} {a : Char} {t : List Char}
    (h : (a :: t).dropWhile p = a :: t) : p a = false := by
  by_cases hp : p a = true
  · exfalso
    rw [List.dropWhile_cons, if_pos hp] at h
    have h1 := congrArg List.length h
    have h2 := length_dropWhile_le p t
    simp only [List.length_cons] at h1
    omega
  · simpa using hp

theorem dropWhile_append_single {p : Char → Bool} {a : Char} (ha : p a = false)
    (l : List Char) : (l ++ [a]).dropWhile p = l.dropWhile p ++ [a] := by
  induction l with
  | nil => simp [List.dropWhile_cons, ha]
  | cons c cs ih =>
    by_cases h : p c = true <;> simp [List.dropWhile_cons, h, ih]

theorem dropWhile_append_of_fixed {p : Char → Bool} {l : List Char}
    (h : l.dropWhile p = l) (hne : l ≠ []) (m : List Char) :
    (l ++ m).dropWhile p = l ++ m := by
  cases l with
  | nil => exact absurd rfl hne
  | cons a t =>
    have ha := dropWhile_cons_eq_self h
    simp [List.dropWhile_cons, ha]

theorem lstrip_idem (l : List Char) : lstripW (lstripW l) = lstripW l :=
  dropWhile_self isPySpace l

theorem rstrip_idem (l : List Char) : rstripW (rstripW l) = rstripW l := by
  unfold rstripW
  rw [List.reverse_reverse, dropWhile_self]

theorem lstrip_rstrip {l : List Char} (h : lstripW l = l) :
    lstripW (rstripW l) = rstripW l := by
  cases l with
  | nil => rfl
  | cons a t =>
    have ha : isPySpace a = false := dropWhile_cons_eq_self h
    have hr : rstripW (a :: t) = a :: (t.reverse.dropWhile isPySpace).reverse := by
      unfold rstripW
      rw [List.reverse_cons, dropWhile_append_single ha]
      simp
    rw [hr]
    unfold lstripW
    simp [List.dropWhile_cons, ha]

theorem pyStrip_idem (l : List Char) : pyStrip (pyStrip l) = pyStrip l := by
  unfold pyStrip
  rw [lstrip_rstrip (lstrip_idem l), rstrip_idem]

theorem lstrip_pyStrip (l : List Char) : lstripW (pyStrip l) = pyStrip l :=
  lstrip_rstrip (lstrip_idem l)

theorem rstrip_pyStrip (l : List Char) : rstripW (pyStrip l) = pyStrip l := by
  unfold pyStrip
  rw [rstrip_idem]

theorem pyStrip_https {s : List Char} (_hl : lstripW s = s) (hr : rstripW s = s)
    (hne : s ≠ []) : pyStrip (("https:".data) ++ s) = ("https:".data) ++ s := by
  have hrev : s.reverse.dropWhile isPySpace = s.reverse := by
    have h2 : ((s.reverse.dropWhile isPySpace).reverse).reverse = s.reverse :=
      congrArg List.reverse hr
    rwa [List.reverse_reverse] at h2
  have hrne : s.reverse ≠ [] := by
    intro h0
    exact hne (by simpa using congrArg List.reverse h0)
  unfold pyStrip
  have hh : isPySpace 'h' = false := by decide
  have h1 : lstripW (("https:".data) ++ s) = ("https:".data) ++ s := by
    show (['h', 't', 't', 'p', 's', ':'] ++ s).dropWhile isPySpace =
      ['h', 't', 't', 'p', 's', ':'] ++ s
    simp [List.dropWhile_cons, hh]
  rw [h1]
  unfold rstripW
  rw [List.reverse_append, show ("https:".data).reverse = [':', 's', 'p', 't', 't', 'h'] from rfl]
  rw [dropWhile_append_of_fixed hrev hrne]
  simp

theorem normalize_url_idem (u : List Char) :
    _normalize_url (_normalize_url u) = _normalize_url u := by
  by_cases hu : u = []
  · simp [_normalize_url, hu]
  · by_cases hs : startsWithL ("//".data) (pyStrip u) = true
    · have hval : _normalize_url u = ("https:".data) ++ pyStrip u := by
        unfold _normalize_url
        rw [if_neg hu, if_pos hs]
      rw [hval]
      have hsne : pyStrip u ≠ [] := by
        intro h0
        rw [h0] at hs
        exact absurd hs (by decide)
      have hne : ("https:".data) ++ pyStrip u ≠ [] := by
        simp [List.append_eq_nil]
      have hfix : pyStrip (("https:".data) ++ pyStrip u) = ("https:".data) ++ pyStrip u :=
        pyStrip_https (lstrip_pyStrip u) (rstrip_pyStrip u) hsne
      have hnostart : startsWithL ("//".data) (("https:".data) ++ pyStrip u) = false := by
        show startsWithL ("//".data) (['h', 't', 't', 'p', 's', ':'] ++ pyStrip u) = false
        simp [startsWithL]
      unfold _normalize_url
      rw [if_neg hne, hfix, hnostart]
      simp
    · have hval : _normalize_url u = pyStrip u := by
        unfold _normalize_url
        rw [if_neg hu, if_neg hs]
      rw [hval]
      by_cases h0 : pyStrip u = []
      · rw [h0]
        simp [_normalize_url]
      · unfold _normalize_url
        rw [if_neg h0, pyStrip_idem, if_neg hs]

/-- C7: `_normalize_url` is idempotent: normalising twice equals normalising
once, for every input (src/scraper.py lines 13-20), including empty,
whitespace-only, protocol-relative and already-absolute inputs. -/
theorem claim_C7 : ∀ u : List Char, _normalize_url (_normalize_url u) = _normalize_url u :=
  normalize_url_idem

/-- C7 witness: idempotence evaluated at the protocol-relative input
`//x.io`. -/
theorem claim_C7_witness :
    _normalize_url (_normalize_url ("//x.io".data)) = _normalize_url ("//x.io".data) :=
  claim_C7 ("//x.io".data)

/-- C8 counterexample: the input `" foo.com "` is non-empty, not
whitespace-only and not protocol-relative, yet `_normalize_url` does not
return it unchanged: surrounding whitespace is stripped. -/
theorem claim_C8_counterexample :
    (" foo.com ".data ≠ [] ∧ pyStrip (" foo.com ".data) ≠ [] ∧
      startsWithL ("//".data) (" foo.com ".data) = false ∧
      startsWithL ("//".data) (pyStrip (" foo.com ".data)) = false) ∧
    _normalize_url (" foo.com ".data) = "foo.com".data ∧
    _normalize_url (" foo.com ".data) ≠ " foo.com ".data := by
  exact ⟨by decide, by decide, by decide⟩

/-- C8 amended: for every non-empty input that is not whitespace-only and
whose stripped form is not protocol-relative, `_normalize_url` returns the
stripped input — no scheme is added, but surrounding whitespace is removed
rather than preserved. -/
theorem claim_C8_amended (u : List Char) (hu : u ≠ []) (_hws : pyStrip u ≠ [])
    (hpr : startsWithL ("//".data) (pyStrip u) = false) :
    _normalize_url u = pyStrip u := by
  unfold _normalize_url
  rw [if_neg hu, hpr]
  simp

/-- C8 witness: the amended claim evaluated at the bare-host input
`foo.com`, which comes back unchanged with no scheme added. -/
theorem claim_C8_witness : _normalize_url ("foo.com".data) = "foo.com".data :=
  (claim_C8_amended ("foo.com".data) (by decide) (by decide) (by decide)).trans (by decide)

/-- C9 counterexample: `_extract_domain "not a url"` is not the empty
string claimed: `urlparse` accepts a host containing spaces, so the scraper
returns `"not a url"` as the domain. -/
theorem claim_C9_counterexample :
    _extract_domain ("not a url".data) = "not a url".data ∧
    _extract_domain ("not a url".data) ≠ [] := by
  exact ⟨by decide, by decide⟩

/-- C9 amended: the first two examples hold as claimed, but on `"not a url"`
the code returns `"not a url"`: after the `http://` prefix is added,
`urlparse` parses the whole remainder (spaces included) as the host, and only
genuinely raising inputs (for instance unbalanced brackets) yield the empty
string. -/
theorem claim_C9_amended :
    _extract_domain ("https://www.Example.com/path?x=1".data) = "example.com".data ∧
    _extract_domain ([] : List Char) = [] ∧
    _extract_domain ("not a url".data) = "not a url".data ∧
    _extract_domain ("[x".data) = [] := by
  exact ⟨by decide, by decide, by decide, by decide⟩

/-- C10: the three key helpers are total functions of their input in this
embedding (each is a Lean `def` defined for every string), and the only
fallible operation among them — the URL parse inside `_extract_domain`'s
`try` block — is caught: whenever the parse raises (modelled by
`extractDomainParse` returning `none`), `_extract_domain` returns the empty
string. -/
theorem claim_C10 (u : List Char) (h : extractDomainParse u = none) :
    _extract_domain u = [] := by
  by_cases hu : u = []
  · simp [_extract_domain, hu]
  · unfold _extract_domain
    rw [if_neg hu, h]

/-- C10 witness: the malformed input `"[x"` (unbalanced IPv6 bracket) makes
the parse raise, and `_extract_domain` returns the empty string. -/
theorem claim_C10_witness :
    extractDomainParse ("[x".data) = none ∧ _extract_domain ("[x".data) = [] :=
  ⟨by decide, claim_C10 ("[x".data) (by decide)⟩

theorem dd_sublist (key : Row → List Char) :
    ∀ (l : List Row) (seen : List (List Char)),
      List.Sublist (drop_duplicates key l seen) l := by
  intro l
  induction l with
  | nil => intro seen; simp [drop_duplicates]
  | cons r rs ih =>
    intro seen
    by_cases h : key r ∈ seen
    · simp only [drop_duplicates, if_pos h]
      exact (ih seen).cons r
    · simp only [drop_duplicates, if_neg h]
      exact (ih (key r :: seen)).cons₂ r

theorem dd_keys_nodup (key : Row → List Char) :
    ∀ (l : List Row) (seen : List (List Char)),
      ((drop_duplicates key l seen).map key).Nodup ∧
      ∀ k ∈ (drop_duplicates key l seen).map key, ¬ k ∈ seen := by
  intro l
  induction l with
  | nil => intro seen; simp [drop_duplicates]
  | cons r rs ih =>
    intro seen
    by_cases h : key r ∈ seen
    · simpa only [drop_duplicates, if_pos h] using ih seen
    · simp only [drop_duplicates, if_neg h, List.map_cons, List.nodup_cons]
      obtain ⟨ih1, ih2⟩ := ih (key r :: seen)
      refine ⟨⟨?_, ih1⟩, ?_⟩
      · intro hmem
        exact (ih2 _ hmem) (List.mem_cons_self _ _)
      · intro k hk
        rcases List.mem_cons.mp hk with hk | hk
        · rw [hk]; exact h
        · intro hks
          exact (ih2 k hk) (List.mem_cons_of_mem _ hks)

theorem map_nodup_pairwise {f : Row → List Char} :
    ∀ {l : List Row}, (l.map f).Nodup → l.Pairwise (fun a b => f a ≠ f b) := by
  intro l
  induction l with
  | nil => intro _; exact List.Pairwise.nil
  | cons a t ih =>
    intro h
    rw [List.map_cons, List.nodup_cons] at h
    refine List.Pairwise.cons ?_ (ih h.2)
    intro b hb he
    exact h.1 (he ▸ List.mem_map_of_mem f hb)

theorem loopGo_isNew (exN exD : List (List Char)) :
    ∀ (cs : List Cand) (sn sd : List (List Char)) (r : Row),
      r ∈ loopGo exN exD cs sn sd → r.isNew = "YES".data := by
  intro cs
  induction cs with
  | nil => intro sn sd r hr; simp [loopGo] at hr
  | cons c cs ih =>
    intro sn sd r hr
    simp only [loopGo] at hr
    split_ifs at hr
    · exact ih _ _ r hr
    · exact ih _ _ r hr
    · exact ih _ _ r hr
    · exact ih _ _ r hr
    · exact ih _ _ r hr
    · rcases List.mem_cons.mp hr with h | h
      · rw [h]
      · exact ih _ _ r h

theorem dd_eq_spec_aux (key : Row → List Char) :
    ∀ (l : List Row) (seen : List (List Char)),
      drop_duplicates key l seen =
        dropDupSpec key (l.filter (fun r => decide (¬ key r ∈ seen))) := by
  intro l
  induction l with
  | nil => intro seen; simp [drop_duplicates, dropDupSpec]
  | cons r rs ih =>
    intro seen
    by_cases h : key r ∈ seen
    · rw [drop_duplicates]
      simp only [if_pos h]
      rw [ih seen, List.filter_cons]
      simp [h]
    · rw [drop_duplicates]
      simp only [if_neg h]
      have hp : decide (¬ key r ∈ seen) = true := by simpa using h
      have hf : List.filter (fun x => decide (key x ≠ key r))
          (List.filter (fun x => decide (¬ key x ∈ seen)) rs) =
          List.filter (fun x => decide (¬ key x ∈ key r :: seen)) rs := by
        rw [List.filter_filter]
        apply List.filter_congr
        intro x _
        by_cases h1 : key x = key r <;> by_cases h2 : key x ∈ seen <;>
          simp [h1, h2, List.mem_cons]
      rw [List.filter_cons, if_pos hp, dropDupSpec, hf, ih (key r :: seen)]

theorem dd_eq_spec (key : Row → List Char) (l : List Row) :
    drop_duplicates key l [] = dropDupSpec key l := by
  rw [dd_eq_spec_aux]
  congr 1
  apply List.filter_eq_self.mpr
  intro a _
  simp

/-- C1 counterexample: two candidates with distinct names and empty websites
both pass the loop, but the final `drop_duplicates(['__domain'])` pass keys
them both on the empty domain and drops the second, so they do NOT both
survive the merge as the claim states. -/
theorem claim_C1_counterexample :
    merge [] [⟨"A".data, []⟩, ⟨"B".data, []⟩] = [⟨"A".data, [], "YES".data⟩] ∧
    newRowsOf [] [⟨"A".data, []⟩, ⟨"B".data, []⟩] =
      [⟨"A".data, [], "YES".data⟩, ⟨"B".data, [], "YES".data⟩] ∧
    ¬ (⟨"B".data, [], "YES".data⟩ : Row) ∈ merge [] [⟨"A".data, []⟩, ⟨"B".data, []⟩] := by
  exact ⟨by decide, by decide, by decide⟩

/-- C1 amended: the final pass drops rows whose `__domain` key duplicates the
key of an earlier row in the concatenation — *including the empty domain* —
keeping the first occurrence, and then does the same for `__name_norm`; so of
several rows with empty websites only the earliest survives.  `dropDupSpec`
is the declarative keep-first reading of one such pass. -/
theorem claim_C1_amended :
    ∀ (e : List Row) (cs : List Cand),
      merge e cs =
        dropDupSpec nameKey (dropDupSpec domainKey
          (e.map (fun r => { r with isNew := [] }) ++ newRowsOf e cs)) := by
  intro e cs
  have hm : merge e cs =
      drop_duplicates nameKey (drop_duplicates domainKey
        (e.map (fun r => { r with isNew := [] }) ++ newRowsOf e cs) []) [] := rfl
  rw [hm, dd_eq_spec, dd_eq_spec]

/-- C1 amended witness: the amended statement evaluated on the
counterexample input of the domain pass. -/
theorem claim_C1_witness :
    merge [] [⟨"C".data, []⟩, ⟨"D".data, []⟩] =
      dropDupSpec nameKey (dropDupSpec domainKey
        (([] : List Row).map (fun r => { r with isNew := [] }) ++
          newRowsOf [] [⟨"C".data, []⟩, ⟨"D".data, []⟩])) :=
  claim_C1_amended [] [⟨"C".data, []⟩, ⟨"D".data, []⟩]

/-- C2: after any merge, no two rows of the produced dataset share a
non-empty `__domain` key and no two rows share the same `__name_norm` key
(src/scraper.py lines 441-487). -/
theorem claim_C2 :
    ∀ (e : List Row) (cs : List Cand),
      ((merge e cs).Pairwise (fun a b => domainKey a ≠ [] → domainKey a ≠ domainKey b)) ∧
      ((merge e cs).Pairwise (fun a b => nameKey a ≠ nameKey b)) := by
  intro e cs
  have hm : merge e cs =
      drop_duplicates nameKey (drop_duplicates domainKey
        (e.map (fun r => { r with isNew := [] }) ++ newRowsOf e cs) []) [] := rfl
  have hname : ((merge e cs).map nameKey).Nodup := by
    rw [hm]; exact (dd_keys_nodup nameKey _ []).1
  have hdomD : ((drop_duplicates domainKey
      (e.map (fun r => { r with isNew := [] }) ++ newRowsOf e cs) []).map domainKey).Nodup :=
    (dd_keys_nodup domainKey _ []).1
  have hsub : List.Sublist (merge e cs)
      (drop_duplicates domainKey
        (e.map (fun r => { r with isNew := [] }) ++ newRowsOf e cs) []) := by
    rw [hm]; exact dd_sublist nameKey _ []
  have hdom : ((merge e cs).map domainKey).Nodup :=
    hdomD.sublist (hsub.map domainKey)
  refine ⟨List.Pairwise.imp ?_ (map_nodup_pairwise hdom), map_nodup_pairwise hname⟩
  intro a b h _
  exact h

/-- C2 witness: the invariant evaluated at the concrete merge of an existing
row with a colliding and a fresh candidate. -/
theorem claim_C2_witness :
    ((merge [⟨"Acme".data, "https://acme.com".data, []⟩]
        [⟨"Acme Corp".data, "https://www.acme.com/x".data⟩, ⟨"Beta".data, "https://beta.io".data⟩]).Pairwise
      (fun a b => domainKey a ≠ [] → domainKey a ≠ domainKey b)) ∧
    ((merge [⟨"Acme".data, "https://acme.com".data, []⟩]
        [⟨"Acme Corp".data, "https://www.acme.com/x".data⟩, ⟨"Beta".data, "https://beta.io".data⟩]).Pairwise
      (fun a b => nameKey a ≠ nameKey b)) :=
  claim_C2 [⟨"Acme".data, "https://acme.com".data, []⟩]
    [⟨"Acme Corp".data, "https://www.acme.com/x".data⟩, ⟨"Beta".data, "https://beta.io".data⟩]

/-- C3: with the existing dataset `[{name: Acme, website: https://acme.com}]`
(any prior marker) and the single candidate
`{name: ACME Inc, website: https://www.acme.com/careers}`, the merge accepts
zero new rows — the candidate's domain `acme.com` collides with the existing
row's domain although the normalised names differ — and the output is the
existing row with its `isNew` marker cleared. -/
theorem claim_C3 :
    ∀ m : List Char,
      merge [⟨"Acme".data, "https://acme.com".data, m⟩]
          [⟨"ACME Inc".data, "https://www.acme.com/careers".data⟩] =
        [⟨"Acme".data, "https://acme.com".data, []⟩] ∧
      newRowsOf [⟨"Acme".data, "https://acme.com".data, m⟩]
          [⟨"ACME Inc".data, "https://www.acme.com/careers".data⟩] = [] ∧
      _normalize_name ("ACME Inc".data) ≠ _normalize_name ("Acme".data) ∧
      _extract_domain ("https://www.acme.com/careers".data) =
        _extract_domain ("https://acme.com".data) := by
  intro m
  exact ⟨rfl, rfl, by decide, by decide⟩

/-- C3 witness: the statement evaluated with the prior marker `YES`. -/
theorem claim_C3_witness :
    merge [⟨"Acme".data, "https://acme.com".data, "YES".data⟩]
        [⟨"ACME Inc".data, "https://www.acme.com/careers".data⟩] =
      [⟨"Acme".data, "https://acme.com".data, []⟩] :=
  (claim_C3 ("YES".data)).1

/-- C4: with an empty existing dataset and candidates
`{name: Foo, website: https://foo.io}` then
`{name: foo, website: https://foo.io/other}`, the merge accepts exactly the
first candidate: the second collides with the run-local seen sets (both its
normalised name and its domain equal the first accepted candidate's keys). -/
theorem claim_C4 :
    merge [] [⟨"Foo".data, "https://foo.io".data⟩, ⟨"foo".data, "https://foo.io/other".data⟩] =
      [⟨"Foo".data, "https://foo.io".data, "YES".data⟩] ∧
    newRowsOf [] [⟨"Foo".data, "https://foo.io".data⟩, ⟨"foo".data, "https://foo.io/other".data⟩] =
      [⟨"Foo".data, "https://foo.io".data, "YES".data⟩] ∧
    _normalize_name ("foo".data) = _normalize_name ("Foo".data) ∧
    _extract_domain ("https://foo.io/other".data) = _extract_domain ("https://foo.io".data) := by
  exact ⟨by decide, by decide, by decide, by decide⟩

theorem sublist_append_split {l A B : List Row} (h : List.Sublist l (A ++ B)) :
    ∃ xs ys, l = xs ++ ys ∧ List.Sublist xs A ∧ List.Sublist ys B :=
  List.sublist_append_iff.mp h

/-- C5: every merge output splits as the surviving pre-existing rows followed
by the surviving new rows: the pre-existing part carries a cleared `isNew`
marker and unmodified `name`/`website` fields, and exactly the rows accepted
in the current run carry the `YES` marker (src/scraper.py lines 470-480). -/
theorem claim_C5 :
    ∀ (e : List Row) (cs : List Cand), ∃ xs ys,
      merge e cs = xs ++ ys ∧
      (∀ r ∈ xs, r.isNew = [] ∧ ∃ r0 ∈ e, r.name = r0.name ∧ r.website = r0.website) ∧
      (∀ r ∈ ys, r.isNew = "YES".data ∧ r ∈ newRowsOf e cs) := by
  intro e cs
  have hm : merge e cs =
      drop_duplicates nameKey (drop_duplicates domainKey
        (e.map (fun r => { r with isNew := [] }) ++ newRowsOf e cs) []) [] := rfl
  have hsub : List.Sublist (merge e cs)
      (e.map (fun r => { r with isNew := [] }) ++ newRowsOf e cs) := by
    rw [hm]
    exact (dd_sublist nameKey _ []).trans (dd_sublist domainKey _ [])
  obtain ⟨xs, ys, hxy, hx, hy⟩ := sublist_append_split hsub
  refine ⟨xs, ys, hxy, ?_, ?_⟩
  · intro r hr
    obtain ⟨r0, hr0, he⟩ := List.mem_map.mp (hx.subset hr)
    refine ⟨by rw [← he], ⟨r0, hr0, by rw [← he], by rw [← he]⟩⟩
  · intro r hr
    have hmem := hy.subset hr
    exact ⟨loopGo_isNew _ _ _ _ _ r hmem, hmem⟩

/-- C5 witness: the split evaluated at a concrete merge with one existing row
and one fresh candidate. -/
theorem claim_C5_witness :
    ∃ xs ys,
      merge [⟨"Old".data, "https://old.io".data, "YES".data⟩]
          [⟨"New".data, "https://new.io".data⟩] = xs ++ ys ∧
      (∀ r ∈ xs, r.isNew = [] ∧
        ∃ r0 ∈ [(⟨"Old".data, "https://old.io".data, "YES".data⟩ : Row)],
          r.name = r0.name ∧ r.website = r0.website) ∧
      (∀ r ∈ ys, r.isNew = "YES".data ∧
        r ∈ newRowsOf [⟨"Old".data, "https://old.io".data, "YES".data⟩]
          [⟨"New".data, "https://new.io".data⟩]) :=
  claim_C5 [⟨"Old".data, "https://old.io".data, "YES".data⟩]
    [⟨"New".data, "https://new.io".data⟩]

theorem ldSameAs_fst : ∀ (us : List (List Char)) (cl cw : List Char) (tr : List Step),
    (ldSameAsGo us cl cw tr).1 = ldLinkedinSameAs us cl := by
  intro us
  induction us with
  | nil => intro cl cw tr; rfl
  | cons u us ih =>
    intro cl cw tr
    simp only [ldSameAsGo, ldLinkedinSameAs]
    exact ih _ _ _

theorem ldItems_fst : ∀ (its : List LdItem) (cl cw : List Char) (tr : List Step),
    (ldItemsGo its cl cw tr).1 = ldLinkedinGo its cl := by
  intro its
  induction its with
  | nil => intro cl cw tr; rfl
  | cons it its ih =>
    intro cl cw tr
    simp only [ldItemsGo, ldLinkedinGo]
    rw [ldSameAs_fst]
    exact ih _ _ _

theorem ldLinkedinSameAs_ne : ∀ (us : List (List Char)) {cl : List Char}, cl ≠ [] →
    ldLinkedinSameAs us cl = cl := by
  intro us
  induction us with
  | nil => intro cl _; rfl
  | cons u us ih =>
    intro cl hcl
    simp only [ldLinkedinSameAs]
    have hno : ¬ (containsL ("linkedin.com/company".data) u = true ∧ cl = []) :=
      fun hC => hcl hC.2
    rw [if_neg hno]
    exact ih hcl

theorem ldLinkedinGo_ne : ∀ (its : List LdItem) {cl : List Char}, cl ≠ [] →
    ldLinkedinGo its cl = cl := by
  intro its
  induction its with
  | nil => intro cl _; rfl
  | cons it its ih =>
    intro cl hcl
    simp only [ldLinkedinGo]
    rw [ldLinkedinSameAs_ne it.sameAs hcl]
    exact ih hcl

theorem ldSameAs_cw_ne {cw : List Char} (hcw : cw ≠ []) :
    ∀ (us : List (List Char)) (cl : List Char) (tr : List Step),
      (ldSameAsGo us cl cw tr).2.1 = cw ∧
      ∀ s ∈ (ldSameAsGo us cl cw tr).2.2, s ∈ tr ∨ s = Step.ldLinkedin := by
  intro us
  induction us with
  | nil => intro cl tr; exact ⟨rfl, fun s hs => Or.inl hs⟩
  | cons u us ih =>
    intro cl tr
    simp only [ldSameAsGo]
    have hdoCw : ¬ ((startsWithL ("http".data) u = true ∨ startsWithL ("//".data) u = true) ∧
        cw = [] ∧ containsL ("linkedin.com".data) u = false) :=
      fun hC => hcw hC.2.1
    rw [if_neg hdoCw, if_neg hdoCw]
    refine ⟨(ih _ _).1, ?_⟩
    intro s hs
    rcases (ih _ _).2 s hs with h | h
    · by_cases hdoCl : (containsL ("linkedin.com/company".data) u = true ∧ cl = [])
      · rw [if_pos hdoCl] at h
        rcases List.mem_append.mp h with h0 | h0
        · exact Or.inl h0
        · exact Or.inr (List.mem_singleton.mp h0)
      · rw [if_neg hdoCl] at h
        exact Or.inl h
    · exact Or.inr h

theorem ldItems_cw_ne {cw : List Char} (hcw : cw ≠ []) :
    ∀ (its : List LdItem) (cl : List Char) (tr : List Step),
      (ldItemsGo its cl cw tr).2.1 = cw ∧
      ∀ s ∈ (ldItemsGo its cl cw tr).2.2, s ∈ tr ∨ s = Step.ldLinkedin := by
  intro its
  induction its with
  | nil => intro cl tr; exact ⟨rfl, fun s hs => Or.inl hs⟩
  | cons it its ih =>
    intro cl tr
    simp only [ldItemsGo]
    obtain ⟨h1, h2⟩ := ldSameAs_cw_ne hcw it.sameAs cl tr
    rw [h1]
    have hdoUrl : ¬ (cw = [] ∧ it.url ≠ []) := fun hC => hcw hC.1
    rw [if_neg hdoUrl, if_neg hdoUrl]
    obtain ⟨h3, h4⟩ := ih (ldSameAsGo it.sameAs cl cw tr).1 (ldSameAsGo it.sameAs cl cw tr).2.2
    refine ⟨h3, ?_⟩
    intro s hs
    rcases h4 s hs with h | h
    · rcases h2 s h with h0 | h0
      · exact Or.inl h0
      · exact Or.inr h0
    · exact Or.inr h

theorem mem_ite_nil_or {s x : Step} {c : Prop} [Decidable c]
    (h : s ∈ (if c then ([] : List Step) else [x])) : s = x := by
  by_cases hc : c
  · rw [if_pos hc] at h
    exact absurd h (List.not_mem_nil s)
  · rw [if_neg hc] at h
    simpa using h

theorem mem_ite_or_nil {s x : Step} {c : Prop} [Decidable c]
    (h : s ∈ (if c then [x] else ([] : List Step))) : s = x := by
  by_cases hc : c
  · rw [if_pos hc] at h
    simpa using h
  · rw [if_neg hc] at h
    exact absurd h (List.not_mem_nil s)

/-- C6: the resolver's fallback cascades short-circuit per field, and the
fields are resolved independently.  First part: if the embedded `data-page`
JSON yields a (normalised non-empty) website, the resolved website is exactly
that value, and neither the DOM website step nor any JSON-LD website
extraction is ever consulted (there is no regex website step in the source at
all).  Second part: for every page the resolved company-LinkedIn and
founder-profile values equal their standalone single-field cascades, so the
other fields' strategies still run independently of the website outcome. -/
theorem claim_C6 :
    (∀ (p : Page) (ps : PageState), p.pageState = some ps →
      _normalize_url (pyOrL ps.company.website ps.company.url) ≠ [] →
      (resolve p).company_website = _normalize_url (pyOrL ps.company.website ps.company.url) ∧
      ¬ Step.domWebsite ∈ (resolve p).trace ∧ ¬ Step.ldWebsite ∈ (resolve p).trace) ∧
    (∀ p : Page, (resolve p).company_linkedin = linkedinOnly p ∧
      (resolve p).founders_linkedin = foundersOnly p) := by
  constructor
  · intro p ps hps hcw
    obtain ⟨w, hw⟩ : ∃ w, pyOrL ps.company.website ps.company.url = w := ⟨_, rfl⟩
    rw [hw] at hcw
    have hwne : w ≠ [] := by
      intro h0
      exact hcw (by rw [h0]; decide)
    have hjson : json_cw p = _normalize_url w := by
      simp [json_cw, hps, hw, hwne]
    have hjne : json_cw p ≠ [] := by
      rw [hjson]
      exact hcw
    have hdom : dom_cw p = _normalize_url w := by
      unfold dom_cw
      rw [if_neg hjne, hjson, normalize_url_idem]
    have hdomne : dom_cw p ≠ [] := by
      rw [hdom]
      exact hcw
    have hld : ld_cw p = dom_cw p := by
      unfold ld_cw
      by_cases hg : dom_cl p = [] ∨ dom_cw p = []
      · rw [if_pos hg]
        exact (ldItems_cw_ne hdomne p.ldItems (dom_cl p) []).1
      · rw [if_neg hg]
    have hchar : ∀ s ∈ resolveTrace p, s ≠ Step.domWebsite ∧ s ≠ Step.ldWebsite := by
      intro s hs
      simp only [resolveTrace, hps, List.mem_append] at hs
      rcases hs with (((((((h | h) | h) | h) | h) | h) | h) | h) | h
      · have h0 := mem_ite_nil_or h
        subst h0
        exact ⟨by decide, by decide⟩
      · have h0 := mem_ite_nil_or h
        subst h0
        exact ⟨by decide, by decide⟩
      · have h0 := mem_ite_nil_or h
        subst h0
        exact ⟨by decide, by decide⟩
      · have h0 := mem_ite_or_nil h
        subst h0
        exact ⟨by decide, by decide⟩
      · rw [if_neg hjne] at h
        exact absurd h (List.not_mem_nil s)
      · by_cases hg : dom_cl p = [] ∨ dom_cw p = []
        · rw [if_pos hg] at h
          rcases (ldItems_cw_ne hdomne p.ldItems (dom_cl p) []).2 s h with h0 | h0
          · exact absurd h0 (List.not_mem_nil s)
          · subst h0
            exact ⟨by decide, by decide⟩
        · rw [if_neg hg] at h
          exact absurd h (List.not_mem_nil s)
      · have h0 := mem_ite_or_nil h
        subst h0
        exact ⟨by decide, by decide⟩
      · have h0 := mem_ite_or_nil h
        subst h0
        exact ⟨by decide, by decide⟩
      · have h0 := mem_ite_or_nil h
        subst h0
        exact ⟨by decide, by decide⟩
    refine ⟨?_, fun hmem => (hchar _ hmem).1 rfl, fun hmem => (hchar _ hmem).2 rfl⟩
    show ld_cw p = _
    rw [hw, hld, hdom]
  · intro p
    constructor
    · show regex_cl p = linkedinOnly p
      have hld : ld_cl p = ldLinkedinGo p.ldItems (dom_cl p) := by
        unfold ld_cl
        by_cases hg : dom_cl p = [] ∨ dom_cw p = []
        · rw [if_pos hg]
          exact ldItems_fst p.ldItems (dom_cl p) (dom_cw p) []
        · rw [if_neg hg]
          push_neg at hg
          exact (ldLinkedinGo_ne p.ldItems hg.1).symm
      unfold regex_cl linkedinOnly
      rw [hld]
      by_cases hc : ldLinkedinGo p.ldItems (dom_cl p) = []
      · rw [if_pos ⟨Or.inl hc, hc⟩, if_pos hc]
        cases hpm : p.regexCompanyMatch with
        | some m => rfl
        | none => exact hc
      · rw [if_neg (fun hC => hc hC.2), if_neg hc]
    · show regex_fl p = foundersOnly p
      unfold regex_fl foundersOnly
      by_cases hf : dom_fl p = []
      · rw [if_pos ⟨Or.inr hf, hf⟩, if_pos hf]
      · rw [if_neg (fun hC => hf hC.2), if_neg hf]

/-- C6 witness: on the concrete page whose embedded JSON carries the website
`https://real.io` while every later source holds a different value, the
resolved website is the JSON one and no later website step appears in the
trace. -/
theorem claim_C6_witness :
    (resolve pageEx).company_website = "https://real.io".data ∧
    ¬ Step.domWebsite ∈ (resolve pageEx).trace ∧ ¬ Step.ldWebsite ∈ (resolve pageEx).trace := by
  have h := claim_C6.1 pageEx psEx rfl (by decide)
  exact ⟨h.1.trans (by decide), h.2.1, h.2.2⟩
